import Mathlib

/-!
Verification of the `observatorium/up` probe against its specification.

The development shallowly embeds the Go functions named by the claims:
  * `reportResults` (cmd/up/main.go) — threshold verdict,
  * `runPeriodically` (cmd/up/main.go) — periodic scheduler tick/shutdown,
  * `doGetFallback` / `do` / `errorTypeAndMsgFor` (pkg/api/api.go) — query
    execution with the 405 GET fallback and the error taxonomy,
  * `Read` (pkg/metrics/read.go) — read-back verification,
  * `generate` (write.go) — write-sample construction,
  * `labelArg.Set` (pkg/options/options.go) — label flag parsing.
Machine floats are embedded as the exact rational values of finite
doubles extended with the IEEE 754 special values the code can produce
(`NaN`, `+Inf`); every arithmetic operation the code performs (add,
multiply, divide) rounds its exact result to the nearest double via `fl`
(round to nearest, ties to even, 53-bit significand, subnormal range and
overflow included), so comparisons are exactly the program's. The
duration arithmetic in the read probe is integer milliseconds before the
final seconds-scale float comparison, whose operands differ by whole
milliseconds — far above double rounding error — so it is compared
exactly there.
-/

namespace Up

/-- IEEE 754 float64 values produced by the probe's arithmetic: the exact
rational value of a finite double plus the two special values reachable
from nonnegative inputs. -/
inductive GoFloat where
  | nan : GoFloat
  | posInf : GoFloat
  | fin : ℚ → GoFloat
deriving DecidableEq, Repr

/-- Round to the nearest integer, ties to even — the rounding applied to
the scaled significand by every IEEE 754 operation in round-to-nearest
mode, and by Go's `fmt` for a `%.0f` (precision-0) conversion. -/
def roundHalfEven (q : ℚ) : ℤ :=
  let f := ⌊q⌋
  let r := q - f
  if r < 1/2 then f else if 1/2 < r then f + 1 else if f % 2 = 0 then f else f + 1

/-- IEEE 754 binary64 rounding of an exact (rational) value, round to
nearest, ties to even: the value is rounded on the granule `2^e`, where
`e = ⌊log₂ |q|⌋ − 52` gives a normal number a 53-bit significand in
`[2^52, 2^53)` and the clamp at `−1074` is the fixed granule of the
subnormal range (underflow to `0` falls out of the rounding). Values
large enough to overflow are screened by `flFin` before `fl` is used. -/
def fl (q : ℚ) : ℚ :=
  if q = 0 then 0
  else
    let e : ℤ := max (Int.log 2 |q| - 52) (-1074)
    let m : ℤ := roundHalfEven (|q| * (2 : ℚ) ^ (-e))
    (if q < 0 then -1 else 1) * (m : ℚ) * (2 : ℚ) ^ e

/-- The float64 result of an exact real value: IEEE round-to-nearest
overflows to `+Inf` exactly when the magnitude reaches `2^1024 − 2^970`
(the midpoint above the largest finite double `2^1024 − 2^971`, which
ties upward to the even `2^1024`); below that the value rounds to the
finite double `fl q`. Negative overflow cannot arise from the probe's
nonnegative arithmetic. -/
def flFin (q : ℚ) : GoFloat :=
  if (2 : ℚ) ^ 1024 - 2 ^ 970 ≤ |q| then .posInf else .fin (fl q)

/-- Float64 division as used in `ratio := success / (success + failures)`
(cmd/up/main.go line 357): the exact quotient rounded to the nearest
double; `0/0 = NaN`, `x/0 = +Inf` for `x > 0` (counter values are
nonnegative, so the negative-infinity cases are omitted). -/
def GoFloat.div : GoFloat → GoFloat → GoFloat
  | .nan, _ => .nan
  | _, .nan => .nan
  | .posInf, .posInf => .nan
  | .posInf, .fin _ => .posInf
  | .fin _, .posInf => .fin 0
  | .fin a, .fin b => if b = 0 then (if a = 0 then .nan else .posInf) else flFin (a / b)

/-- Float64 multiplication (used for `threshold*100` and `ratio*100`):
the exact product rounded to the nearest double. -/
def GoFloat.mul : GoFloat → GoFloat → GoFloat
  | .nan, _ => .nan
  | _, .nan => .nan
  | .posInf, .posInf => .posInf
  | .posInf, .fin b => if b = 0 then .nan else .posInf
  | .fin a, .posInf => if a = 0 then .nan else .posInf
  | .fin a, .fin b => flFin (a * b)

/-- Float64 addition (the `success + failures` in the ratio denominator):
the exact sum rounded to the nearest double (`∞ − ∞` cannot arise from
the probe's nonnegative inputs). -/
def GoFloat.add : GoFloat → GoFloat → GoFloat
  | .nan, _ => .nan
  | _, .nan => .nan
  | .posInf, _ => .posInf
  | _, .posInf => .posInf
  | .fin a, .fin b => flFin (a + b)

/-- Float64 strict comparison `<`: any comparison with `NaN` is false;
comparison of two finite doubles is the comparison of their exact rational
values. -/
def GoFloat.lt : GoFloat → GoFloat → Bool
  | .nan, _ => false
  | _, .nan => false
  | .fin a, .fin b => decide (a < b)
  | .fin _, .posInf => true
  | .posInf, _ => false

/-- Go's `fmt.Sprintf("%2.f", x)`: width 2, precision 0 — the float is
rendered with NO digits after the decimal point, space-padded on the left
to at least two characters. `NaN` and `+Inf` render as in Go. -/
def goFmtW2P0 : GoFloat → String
  | .nan => "NaN"
  | .posInf => "+Inf"
  | .fin q =>
      let s := toString (roundHalfEven q)
      if s.length < 2 then String.mk (List.replicate (2 - s.length) ' ') ++ s else s

/-- What `reportResults` does externally: the error values sent on the
error channel `ch`, and the returned error (`none` = nil = PASS). -/
structure ReportOutcome where
  sent : List String
  err : Option String
deriving DecidableEq, Repr

/-- `reportResults` (cmd/up/main.go lines 332–368), after the prometheus
counter collection has yielded the accumulated `success` and `failures`
counts: computes `ratio := success / (success + failures)` in float64
(rounded addition and division); if `ratio < threshold` it builds
`fmt.Errorf("failed with less than %2.f%% success ratio - actual %2.f%%",
threshold*100, ratio*100)` (rounded multiplications), sends it on the
channel and returns it; otherwise it returns nil and sends nothing.
The counts are taken as naturals: a counter incremented `n ≤ 2^53` times
holds exactly the double `n` (each `Add(1)` and the conversion are exact
in that range), which bounds every realizable run; the theorems below
carry this bound as a hypothesis. -/
def reportResults (success failures : ℕ) (threshold : ℚ) : ReportOutcome :=
  let ratio := GoFloat.div (.fin (success : ℚ))
    (GoFloat.add (.fin (success : ℚ)) (.fin (failures : ℚ)))
  if GoFloat.lt ratio (.fin threshold) then
    let e := "failed with less than " ++
      goFmtW2P0 (GoFloat.mul (.fin threshold) (.fin 100)) ++
      "% success ratio - actual " ++ goFmtW2P0 (GoFloat.mul ratio (.fin 100)) ++ "%"
    ⟨[e], some e⟩
  else
    ⟨[], none⟩

lemma roundHalfEven_intCast (k : ℤ) : roundHalfEven (k : ℚ) = k := by
  norm_num [roundHalfEven]

/-- Evaluation interface for `fl` at a positive value: exhibiting the
power-of-two bracket `2^L ≤ q < 2^(L+1)` (above the subnormal range)
reduces `fl q` to one significand rounding on the granule `2^(L−52)`. -/
lemma fl_eval (q : ℚ) (L : ℤ) (hq : 0 < q)
    (h1 : ((2 : ℕ) : ℚ) ^ L ≤ q) (h2 : q < ((2 : ℕ) : ℚ) ^ (L + 1))
    (hL : -1074 ≤ L - 52) :
    fl q = (roundHalfEven (q * (2 : ℚ) ^ (-(L - 52))) : ℚ) * (2 : ℚ) ^ (L - 52) := by
  have hlog : Int.log 2 q = L := by
    have l1 := (Int.zpow_le_iff_le_log (b := 2) (by norm_num) hq).mp h1
    have l2 := (Int.lt_zpow_iff_log_lt (b := 2) (by norm_num) hq).mp h2
    omega
  have habs : |q| = q := abs_of_pos hq
  have hnlt : ¬ q < 0 := not_lt.mpr hq.le
  have hmax : max (Int.log 2 |q| - 52) (-1074) = L - 52 := by
    rw [habs, hlog]; omega
  rw [fl, if_neg hq.ne', hmax]
  show (if q < 0 then (-1 : ℚ) else 1) *
      ((roundHalfEven (|q| * (2 : ℚ) ^ (-(L - 52)))) : ℚ) * (2 : ℚ) ^ (L - 52) = _
  rw [habs, if_neg hnlt, one_mul]

/-- Naturals up to `2^53` are exactly representable: `fl` fixes them. -/
lemma fl_natCast (n : ℕ) (hn : n ≤ 2 ^ 53) : fl (n : ℚ) = n := by
  rcases Nat.eq_zero_or_pos n with rfl | hpos
  · simp [fl]
  have hq : (0 : ℚ) < n := by exact_mod_cast hpos
  have hlog0 : 0 ≤ Int.log 2 (n : ℚ) := by
    rw [Int.log_natCast]
    exact Int.ofNat_nonneg _
  have hub : Int.log 2 (n : ℚ) ≤ 53 := by
    by_contra hgt
    push_neg at hgt
    have h54 : ((2 : ℕ) : ℚ) ^ (54 : ℤ) ≤ (n : ℚ) :=
      (Int.zpow_le_iff_le_log (by norm_num) hq).mpr (by omega)
    have h54q : (18014398509481984 : ℚ) ≤ (n : ℚ) := by
      have he : ((2 : ℕ) : ℚ) ^ (54 : ℤ) = 18014398509481984 := by norm_num
      rw [he] at h54
      exact h54
    have h54n : (18014398509481984 : ℕ) ≤ n := by exact_mod_cast h54q
    have hn' : n ≤ 9007199254740992 := by
      have hp : (2 : ℕ) ^ 53 = 9007199254740992 := by norm_num
      omega
    omega
  rcases lt_or_eq_of_le hub with hlt | heq
  · set L : ℤ := Int.log 2 (n : ℚ) with hL
    have h1 : ((2 : ℕ) : ℚ) ^ L ≤ (n : ℚ) := Int.zpow_log_le_self (by norm_num) hq
    have h2 : (n : ℚ) < ((2 : ℕ) : ℚ) ^ (L + 1) := Int.lt_zpow_succ_log_self (by norm_num) _
    rw [fl_eval (n : ℚ) L hq h1 h2 (by omega)]
    obtain ⟨k, hk⟩ : ∃ k : ℕ, (k : ℤ) = 52 - L :=
      ⟨(52 - L).toNat, Int.toNat_of_nonneg (by omega)⟩
    have harg : (n : ℚ) * (2 : ℚ) ^ (-(L - 52)) = (((n * 2 ^ k : ℕ) : ℤ) : ℚ) := by
      rw [show -(L - 52) = (k : ℤ) by omega, zpow_natCast]
      push_cast
      ring
    rw [harg, roundHalfEven_intCast]
    push_cast
    rw [mul_assoc, ← zpow_natCast (2 : ℚ) k,
      ← zpow_add₀ (show (2 : ℚ) ≠ 0 by norm_num),
      show (k : ℤ) + (L - 52) = 0 by omega, zpow_zero, mul_one]
  · have hlow : ((2 : ℕ) : ℚ) ^ (53 : ℤ) ≤ (n : ℚ) :=
      (Int.zpow_le_iff_le_log (by norm_num) hq).mpr (by omega)
    have hlowq : (9007199254740992 : ℚ) ≤ (n : ℚ) := by
      have he : ((2 : ℕ) : ℚ) ^ (53 : ℤ) = 9007199254740992 := by norm_num
      rw [he] at hlow
      exact hlow
    have hlown : (9007199254740992 : ℕ) ≤ n := by exact_mod_cast hlowq
    have hn53 : n = 9007199254740992 := by
      have hp : (2 : ℕ) ^ 53 = 9007199254740992 := by norm_num
      omega
    subst hn53
    have hc : ((9007199254740992 : ℕ) : ℚ) = (9007199254740992 : ℚ) := by norm_num
    rw [hc, fl_eval (9007199254740992 : ℚ) 53 (by norm_num) (by norm_num) (by norm_num)
      (by norm_num)]
    have harg : (9007199254740992 : ℚ) * (2 : ℚ) ^ (-(53 - 52 : ℤ)) =
        ((4503599627370496 : ℤ) : ℚ) := by norm_num
    rw [harg, roundHalfEven_intCast]
    norm_num

/-- The rounded 5/6: float64 division rounds `5.0/6.0` up to the double
`7505999378950827 · 2^−53`, which is strictly greater than `5/6`. -/
lemma fl_five_sixths : fl ((5 : ℚ) / 6) = 7505999378950827 / 2 ^ 53 := by
  rw [fl_eval ((5 : ℚ) / 6) (-1) (by norm_num) (by norm_num) (by norm_num) (by norm_num)]
  have harg : (5 : ℚ) / 6 * (2 : ℚ) ^ (-(-1 - 52 : ℤ)) = 45035996273704960 / 6 := by
    norm_num
  have hfl : ⌊(45035996273704960 : ℚ) / 6⌋ = 7505999378950826 := by
    rw [Int.floor_eq_iff]
    constructor <;> norm_num
  have hround : roundHalfEven ((45035996273704960 : ℚ) / 6) = 7505999378950827 := by
    rw [roundHalfEven]
    rw [hfl]
    norm_num
  rw [harg, hround]
  norm_num

/-- A value that happens to be a representable natural is passed through
by `flFin` unchanged. -/
lemma flFin_of_repr (q : ℚ) (n : ℕ) (hq : q = n) (hn : n ≤ 2 ^ 53) :
    flFin q = .fin (n : ℚ) := by
  subst hq
  have h0 : (0 : ℚ) ≤ (n : ℚ) := Nat.cast_nonneg n
  have hle : (n : ℚ) ≤ 2 ^ 53 := by exact_mod_cast hn
  have hno : ¬ ((2 : ℚ) ^ 1024 - 2 ^ 970 ≤ |(n : ℚ)|) := by
    rw [abs_of_nonneg h0]
    have hb : (2 : ℚ) ^ 53 < 2 ^ 1024 - 2 ^ 970 := by norm_num
    linarith
  rw [flFin, if_neg hno, fl_natCast n hn]

/-- The ratio `success / (success + failures)` as the program computes it:
for counts whose sum stays within float64's exact-integer range the
addition is exact and the division produces the rounded finite double
`fl (s / (s+e))` (no overflow: the quotient is at most 1). -/
lemma reportResults_ratio (s e : ℕ) (hpos : 0 < s + e) (hrep : s + e ≤ 2 ^ 53) :
    GoFloat.div (.fin (s : ℚ)) (GoFloat.add (.fin (s : ℚ)) (.fin (e : ℚ))) =
      .fin (fl ((s : ℚ) / ((s : ℚ) + (e : ℚ)))) := by
  have hsum : (s : ℚ) + (e : ℚ) = ((s + e : ℕ) : ℚ) := by push_cast; ring
  have hden0 : (0 : ℚ) < (s : ℚ) + (e : ℚ) := by
    rw [hsum]; exact_mod_cast hpos
  have hadd : GoFloat.add (.fin (s : ℚ)) (.fin (e : ℚ)) = .fin ((s : ℚ) + (e : ℚ)) := by
    simp only [GoFloat.add]
    rw [flFin_of_repr ((s : ℚ) + (e : ℚ)) (s + e) hsum hrep, ← hsum]
  have hratio0 : 0 ≤ (s : ℚ) / ((s : ℚ) + (e : ℚ)) :=
    div_nonneg (Nat.cast_nonneg s) hden0.le
  have hratio1 : (s : ℚ) / ((s : ℚ) + (e : ℚ)) ≤ 1 := by
    rw [div_le_one hden0]
    have he0 : (0 : ℚ) ≤ (e : ℚ) := Nat.cast_nonneg e
    linarith
  have hno : ¬ ((2 : ℚ) ^ 1024 - 2 ^ 970 ≤ |(s : ℚ) / ((s : ℚ) + (e : ℚ))|) := by
    rw [abs_of_nonneg hratio0]
    have hb : (1 : ℚ) < 2 ^ 1024 - 2 ^ 970 := by norm_num
    linarith
  rw [hadd]
  simp only [GoFloat.div, if_neg hden0.ne', flFin, if_neg hno]

/-- C1 counterexample: the claim compares the exact ratio with the
threshold, but float64 division rounds: `5.0/6.0` is the double
`7505999378950827·2^−53`, strictly greater than `5/6`. At the realizable
threshold `0.8333333333333334` (exactly that double, inside `[0,1]`) and
counts `success=5, error=1` the program computes `ratio == threshold` and
PASSes (nil error) although the exact ratio `5/6` is strictly below the
threshold — refuting "PASS if and only if success/(success+error) ≥
threshold". -/
theorem reportResults_rounding_counterexample :
    0 < 5 + 1 ∧ (0 : ℚ) ≤ 7505999378950827 / 2 ^ 53 ∧
      (7505999378950827 : ℚ) / 2 ^ 53 ≤ 1 ∧
      (reportResults 5 1 (7505999378950827 / 2 ^ 53)).err = none ∧
      (5 : ℚ) / ((5 : ℚ) + (1 : ℚ)) < 7505999378950827 / 2 ^ 53 := by
  refine ⟨by norm_num, by norm_num, by norm_num, ?_, by norm_num⟩
  have hr := reportResults_ratio 5 1 (by norm_num) (by norm_num)
  have hfl : fl (((5 : ℕ) : ℚ) / (((5 : ℕ) : ℚ) + ((1 : ℕ) : ℚ))) =
      7505999378950827 / 2 ^ 53 := by
    rw [show (((5 : ℕ) : ℚ) / (((5 : ℕ) : ℚ) + ((1 : ℕ) : ℚ))) = (5 : ℚ) / 6 by norm_num,
      fl_five_sixths]
  rw [hfl] at hr
  simp only [reportResults, hr, GoFloat.lt,
    decide_eq_false (lt_irrefl ((7505999378950827 : ℚ) / 2 ^ 53))]
  rfl

/-- C1 (amended): for accumulated counts with `success + error > 0` whose
sum is within float64's exact-integer range `[0, 2^53]` (which bounds any
realizable run) and any threshold in `[0,1]`, `reportResults` returns a
PASS (nil error) if and only if the threshold is at most the
float64-rounded ratio `fl (success / (success + error))` — the comparison
the program performs uses the rounded double, not the exact ratio. -/
theorem reportResults_pass_iff (s e : ℕ) (θ : ℚ) (hpos : 0 < s + e)
    (hrep : s + e ≤ 2 ^ 53) (h0 : 0 ≤ θ) (h1 : θ ≤ 1) :
    (reportResults s e θ).err = none ↔ θ ≤ fl ((s : ℚ) / ((s : ℚ) + (e : ℚ))) := by
  have hr := reportResults_ratio s e hpos hrep
  by_cases h : fl ((s : ℚ) / ((s : ℚ) + (e : ℚ))) < θ
  · simp [reportResults, hr, GoFloat.lt, h, not_le.mpr h]
  · simp [reportResults, hr, GoFloat.lt, h, not_lt.mp h]

/-- C1 witness: `success=9, error=1` at threshold `0.5` satisfies every
hypothesis and instantiates the verdict characterization. -/
theorem reportResults_pass_iff_witness :
    0 < 9 + 1 ∧ 9 + 1 ≤ 2 ^ 53 ∧ (0 : ℚ) ≤ 1/2 ∧ (1/2 : ℚ) ≤ 1 ∧
      ((reportResults 9 1 (1/2)).err = none ↔
        (1/2 : ℚ) ≤ fl (((9 : ℕ) : ℚ) / (((9 : ℕ) : ℚ) + ((1 : ℕ) : ℚ)))) :=
  ⟨by norm_num, by norm_num, by norm_num, by norm_num,
    reportResults_pass_iff 9 1 (1/2) (by norm_num) (by norm_num) (by norm_num)
      (by norm_num)⟩

/-- C9 counterexample: the claim says the FAIL error reports the
percentages with two-decimal precision, but the format verb in the source
is `%2.f` (width 2, precision 0): at `success=0, error=1, threshold=0.5`
the message is exactly
`failed with less than 50% success ratio - actual  0%` — whole-number
percentages, width-2 padded, with no decimal point at all. -/
theorem reportResults_message_no_decimals :
    reportResults 0 1 (1/2) =
      ⟨["failed with less than 50% success ratio - actual  0%"],
        some "failed with less than 50% success ratio - actual  0%"⟩ ∧
    ("failed with less than 50% success ratio - actual  0%".data.contains '.') = false := by
  refine ⟨?_, by decide⟩
  have hr := reportResults_ratio 0 1 (by norm_num) (by norm_num)
  have hfl0 : fl (((0 : ℕ) : ℚ) / (((0 : ℕ) : ℚ) + ((1 : ℕ) : ℚ))) = 0 := by
    rw [show (((0 : ℕ) : ℚ) / (((0 : ℕ) : ℚ) + ((1 : ℕ) : ℚ))) = 0 by norm_num]
    simp [fl]
  have hm50 : GoFloat.mul (.fin ((1 : ℚ)/2)) (.fin 100) = .fin 50 := by
    simp only [GoFloat.mul]
    rw [flFin_of_repr ((1 : ℚ)/2 * 100) 50 (by norm_num) (by norm_num)]
    norm_num
  have hm0 : GoFloat.mul (.fin (0 : ℚ)) (.fin 100) = .fin 0 := by
    simp only [GoFloat.mul]
    rw [flFin_of_repr ((0 : ℚ) * 100) 0 (by norm_num) (by norm_num)]
    norm_num
  have hfmt50 : goFmtW2P0 (.fin 50) = "50" := by
    have hre : roundHalfEven (50 : ℚ) = 50 := by
      rw [show (50 : ℚ) = ((50 : ℤ) : ℚ) by norm_num]
      exact roundHalfEven_intCast 50
    simp only [goFmtW2P0, hre]
    decide
  have hfmt0 : goFmtW2P0 (.fin 0) = " 0" := by
    have hre : roundHalfEven (0 : ℚ) = 0 := by
      rw [show (0 : ℚ) = ((0 : ℤ) : ℚ) by norm_num]
      exact roundHalfEven_intCast 0
    simp only [goFmtW2P0, hre]
    decide
  simp only [reportResults, hr, hfl0, GoFloat.lt,
    decide_eq_true (show (0 : ℚ) < 1/2 by norm_num), if_true, hm50, hm0, hfmt50, hfmt0]
  decide

/-- C9 (amended): whenever the verdict is FAIL (the rounded float ratio is
below the threshold), the error returned by `reportResults` — the same
value it sends on the error channel — reports the required and the actual
success percentages, each computed by a rounded float64 multiplication by
100 and rendered with the `%2.f` verb: zero digits after the decimal
point, left-padded to width two. -/
theorem reportResults_fail_message (s e : ℕ) (θ : ℚ) (hpos : 0 < s + e)
    (hrep : s + e ≤ 2 ^ 53)
    (h : fl ((s : ℚ) / ((s : ℚ) + (e : ℚ))) < θ) :
    (reportResults s e θ).err =
      some ("failed with less than " ++ goFmtW2P0 (flFin (θ * 100)) ++
        "% success ratio - actual " ++
        goFmtW2P0 (flFin (fl ((s : ℚ) / ((s : ℚ) + (e : ℚ))) * 100)) ++ "%") ∧
    (reportResults s e θ).sent =
      ["failed with less than " ++ goFmtW2P0 (flFin (θ * 100)) ++
        "% success ratio - actual " ++
        goFmtW2P0 (flFin (fl ((s : ℚ) / ((s : ℚ) + (e : ℚ))) * 100)) ++ "%"] := by
  have hr := reportResults_ratio s e hpos hrep
  constructor <;>
    simp [reportResults, hr, GoFloat.lt, GoFloat.mul, h]

/-- C9 witness: at `success=0, error=1, threshold=0.5` the verdict is FAIL
and the message carries the two `%2.f`-rendered percentages. -/
theorem reportResults_fail_message_witness :
    0 < 0 + 1 ∧ 0 + 1 ≤ 2 ^ 53 ∧
      fl (((0 : ℕ) : ℚ) / (((0 : ℕ) : ℚ) + ((1 : ℕ) : ℚ))) < 1/2 ∧
      (reportResults 0 1 (1/2)).err =
        some ("failed with less than " ++ goFmtW2P0 (flFin ((1/2 : ℚ) * 100)) ++
          "% success ratio - actual " ++
          goFmtW2P0 (flFin (fl (((0 : ℕ) : ℚ) / (((0 : ℕ) : ℚ) + ((1 : ℕ) : ℚ))) * 100)) ++
          "%") :=
  ⟨by norm_num, by norm_num,
    by
      rw [show (((0 : ℕ) : ℚ) / (((0 : ℕ) : ℚ) + ((1 : ℕ) : ℚ))) = 0 by norm_num]
      simp [fl],
    (reportResults_fail_message 0 1 (1/2) (by norm_num) (by norm_num)
      (by
        rw [show (((0 : ℕ) : ℚ) / (((0 : ℕ) : ℚ) + ((1 : ℕ) : ℚ))) = 0 by norm_num]
        simp [fl])).1⟩

/-- C10: with zero recorded outcomes the ratio is the float `0/0 = NaN`,
`NaN < threshold` is false for every threshold, so `reportResults` returns
nil and sends nothing on the error channel — a zero-sample run is always
verdicted PASS, whatever the threshold. -/
theorem reportResults_zero_samples :
    GoFloat.div (.fin ((0 : ℕ) : ℚ)) (.fin (((0 : ℕ) : ℚ) + ((0 : ℕ) : ℚ))) = .nan ∧
    (∀ θ : ℚ, GoFloat.lt .nan (.fin θ) = false) ∧
    (∀ θ : ℚ, reportResults 0 0 θ = ⟨[], none⟩) := by
  refine ⟨by simp [GoFloat.div], fun θ => rfl, fun θ => ?_⟩
  have hadd : GoFloat.add (.fin (0 : ℚ)) (.fin (0 : ℚ)) = .fin 0 := by
    simp only [GoFloat.add]
    rw [flFin_of_repr ((0 : ℚ) + (0 : ℚ)) 0 (by norm_num) (by norm_num)]
    norm_num
  simp [reportResults, hadd, GoFloat.div, GoFloat.lt]

/-! ### Label flag parsing (`labelArg.Set`, pkg/options/options.go lines 67–92)

Strings are handled as their character lists so that every operation is a
structural recursion the kernel can evaluate. -/

/-- HTTP method of an issued request. -/
inductive Method where
  | post
  | get
deriving DecidableEq, Repr

/-- The decoded JSON response body `{status, errorType, error, ...}`
(`apiResponse`); `data` and `warnings` are not consulted by any claim. -/
structure APIBody where
  status : String
  errorType : String
  errMsg : String
deriving DecidableEq, Repr

/-- A typed error (`promapiv1.Error`): the error-type tag and message. -/
structure APIError where
  type : String
  msg : String
deriving DecidableEq, Repr

/-- `statusAPIError = 422` (pkg/api/api.go line 34). -/
def statusAPIError : ℕ := 422

/-- `apiError`: the codes Prometheus sends when it returns an error body
(422 and 400). -/
def apiError (code : ℕ) : Bool :=
  code == statusAPIError || code == 400

/-- `errorTypeAndMsgFor`: classify a non-2xx response by its status class:
4xx → `client_error`, 5xx → `server_error`, anything else →
`bad_response`. -/
def errorTypeAndMsgFor (code : ℕ) : String × String :=
  if code / 100 == 4 then ("client_error", "client error: " ++ toString code)
  else if code / 100 == 5 then ("server_error", "server error: " ++ toString code)
  else ("bad_response", "bad response code " ++ toString code)

/-- `do` (pkg/api/api.go lines 115–159), given the HTTP status code and the
decoded body: a non-2xx code other than 400/422 returns early with
`errorTypeAndMsgFor` (the body is never consulted); otherwise the body is
decoded, a 400/422 whose body claims `success` is the inconsistency error,
and a body with `status == "error"` surfaces the body's own
`errorType`/`error`. (The JSON-decode-failure and 204 no-content paths are
not exercised by any claim and are outside this embedding.) -/
def doRequest (code : ℕ) (body : APIBody) : Option APIError :=
  if code / 100 != 2 && !(apiError code) then
    some ⟨(errorTypeAndMsgFor code).1, (errorTypeAndMsgFor code).2⟩
  else
    let err1 : Option APIError :=
      if apiError code && (body.status == "success") then
        some ⟨"bad_response", "inconsistent body for response code"⟩
      else none
    if body.status == "error" then some ⟨body.errorType, body.errMsg⟩ else err1

/-- Outcome of `doGetFallback`: the requests issued (method plus the
URL-encoded query parameters each carried) and the final response —
`none` when the transport returned no response at all. -/
structure FallbackResult where
  issued : List (Method × String)
  resp : Option (ℕ × Option APIError)
deriving DecidableEq, Repr

/-- `doGetFallback` (pkg/api/api.go lines 161–198): issue the query as a
POST whose form body is the encoded `args`; if (and only if) an HTTP
response with code 405 came back, re-issue the identical `args` as a GET
with the same encoding appended to the URL; any other outcome is returned
as-is. The server is an oracle from (method, encoded args) to an optional
HTTP response (`none` = transport error, Go's non-nil `err` with nil
`resp`). -/
def doGetFallback (args : String) (server : Method → String → Option (ℕ × APIBody)) :
    FallbackResult :=
  match server .post args with
  | none => ⟨[(.post, args)], none⟩
  | some (code, body) =>
      if code == 405 then
        match server .get args with
        | none => ⟨[(.post, args), (.get, args)], none⟩
        | some (code2, body2) =>
            ⟨[(.post, args), (.get, args)], some (code2, doRequest code2 body2)⟩
      else ⟨[(.post, args)], some (code, doRequest code body)⟩

/-- C4: every query goes out first as a POST carrying the encoded
parameters; the identical parameters are re-issued as a GET exactly when
the POST got an HTTP 405 response; any other outcome (transport error or
any other status) returns without a retry; and a server answering 405 to
the POST and 200 with a well-formed success body to the GET yields a
successful outcome (no error). -/
theorem doGetFallback_spec (args : String)
    (server : Method → String → Option (ℕ × APIBody)) :
    ((doGetFallback args server).issued = [(Method.post, args), (Method.get, args)] ↔
      ∃ b, server .post args = some (405, b)) ∧
    (server .post args = none →
      doGetFallback args server = ⟨[(Method.post, args)], none⟩) ∧
    (∀ c b, server .post args = some (c, b) → c ≠ 405 →
      doGetFallback args server = ⟨[(Method.post, args)], some (c, doRequest c b)⟩) ∧
    (∀ b b2, server .post args = some (405, b) → server .get args = some (200, b2) →
      b2.status = "success" →
      (doGetFallback args server).resp = some (200, none)) := by
  refine ⟨?_, ?_, ?_, ?_⟩
  · constructor
    · intro h
      cases hp : server .post args with
      | none => rw [doGetFallback, hp] at h; simp at h
      | some cb =>
          rcases cb with ⟨c, b⟩
          by_cases hc : c = 405
          · exact ⟨b, by rw [← hc]⟩
          · rw [doGetFallback, hp] at h
            simp [hc] at h
    · rintro ⟨b, hb⟩
      rw [doGetFallback, hb]
      simp only [beq_self_eq_true, if_true]
      cases hg : server .get args with
      | none => simp
      | some cb =>
          rcases cb with ⟨c2, b2⟩
          simp
  · intro h
    rw [doGetFallback, h]
  · intro c b h hc
    rw [doGetFallback, h]
    simp [hc]
  · intro b b2 hp hg hs
    rw [doGetFallback, hp]
    simp only [beq_self_eq_true, if_true, hg]
    simp [doRequest, apiError, statusAPIError, hs]

/-- C4 witness: a server that answers 405 to POST and 200/success to GET
makes the fallback issue both requests and succeed. -/
theorem doGetFallback_spec_witness :
    (fun m (_ : String) => match m with
      | Method.post => some ((405 : ℕ), APIBody.mk "" "" "")
      | Method.get => some ((200 : ℕ), APIBody.mk "success" "" "")) Method.post "q" =
        some (405, APIBody.mk "" "" "") ∧
    (doGetFallback "q" (fun m _ => match m with
      | Method.post => some ((405 : ℕ), APIBody.mk "" "" "")
      | Method.get => some ((200 : ℕ), APIBody.mk "success" "" ""))).resp =
        some (200, none) :=
  ⟨rfl,
    (doGetFallback_spec "q" (fun m _ => match m with
      | Method.post => some ((405 : ℕ), APIBody.mk "" "" "")
      | Method.get => some ((200 : ℕ), APIBody.mk "success" "" ""))).2.2.2
      (APIBody.mk "" "" "") (APIBody.mk "success" "" "") rfl rfl rfl⟩

/-- C5 counterexample: the claim keys the typed error for a
`status == "error"` body by the HTTP status class, but a 422 response whose
body says `{status: "error", errorType: "bad_data"}` is surfaced with the
body's own error type `bad_data`, not `client_error`: for 400/422 (and
2xx) responses the body's `errorType` wins. -/
theorem doRequest_bodyError_counterexample :
    doRequest 422 ⟨"error", "bad_data", "boom"⟩ = some ⟨"bad_data", "boom"⟩ ∧
    "bad_data" ≠ "client_error" := by
  constructor
  · rfl
  · decide

/-- C5 (amended): a non-2xx response other than 400/422 is surfaced as a
typed error keyed by the HTTP status class — 4xx → `client_error`, 5xx →
`server_error`, other → `bad_response` — without consulting the body; for
a 2xx, 400 or 422 response the body is decoded and `status == "error"`
surfaces the body's own `errorType`/`error`; a 400/422 whose body claims
`status == "success"` is the `bad_response` inconsistency error. -/
theorem doRequest_taxonomy (code : ℕ) (body : APIBody) :
    (code / 100 ≠ 2 → apiError code = false →
      doRequest code body =
        some ⟨(errorTypeAndMsgFor code).1, (errorTypeAndMsgFor code).2⟩ ∧
      (400 ≤ code → code ≤ 499 → (errorTypeAndMsgFor code).1 = "client_error") ∧
      (500 ≤ code → code ≤ 599 → (errorTypeAndMsgFor code).1 = "server_error") ∧
      (code / 100 ≠ 4 → code / 100 ≠ 5 → (errorTypeAndMsgFor code).1 = "bad_response")) ∧
    ((code / 100 = 2 ∨ apiError code = true) → body.status = "error" →
      doRequest code body = some ⟨body.errorType, body.errMsg⟩) ∧
    (apiError code = true → body.status = "success" →
      doRequest code body = some ⟨"bad_response", "inconsistent body for response code"⟩) := by
  refine ⟨fun h2 hapi => ⟨?_, fun h4l h4u => ?_, fun h5l h5u => ?_, fun h4 h5 => ?_⟩,
    fun hok herr => ?_, fun hapi hsucc => ?_⟩
  · simp [doRequest, h2, hapi]
  · have : code / 100 = 4 := by omega
    simp [errorTypeAndMsgFor, this]
  · have : code / 100 = 5 := by omega
    simp [errorTypeAndMsgFor, this]
  · simp [errorTypeAndMsgFor, h4, h5]
  · rcases hok with h2 | hapi
    · simp [doRequest, h2, herr]
    · simp [doRequest, hapi, herr]
  · have hne : body.status ≠ "error" := by rw [hsucc]; decide
    simp [doRequest, hapi, hsucc, hne]

/-- C5 witness: a 503 response is surfaced as `server_error` without
consulting the body, and a 422 success-body response is the inconsistency
error. -/
theorem doRequest_taxonomy_witness :
    ((503 : ℕ) / 100 ≠ 2) ∧ apiError 503 = false ∧
      doRequest 503 ⟨"error", "x", "y"⟩ =
        some ⟨(errorTypeAndMsgFor 503).1, (errorTypeAndMsgFor 503).2⟩ ∧
    (apiError 422 = true ∧ doRequest 422 ⟨"success", "", ""⟩ =
      some ⟨"bad_response", "inconsistent body for response code"⟩) :=
  ⟨by decide, by decide,
    ((doRequest_taxonomy 503 ⟨"error", "x", "y"⟩).1 (by decide) (by decide)).1,
    by decide,
    (doRequest_taxonomy 422 ⟨"success", "", ""⟩).2.2 (by decide) rfl⟩

/-! ### Read-back verification (`Read`, pkg/metrics/read.go lines 25–88)
and the write sample (`generate`, write.go lines 146–162) -/

/-- The failures `Read` can report after the query returned a vector:
the wrong-cardinality error (`expected one metric, got %d`) and the
latency error (`metric value is too old`), which carries the measured age.
Time is carried in integer milliseconds; the float comparison
`diffSeconds > latency.Seconds()` compares the same quantities scaled by
1000, so integer-millisecond arithmetic decides it exactly. -/
inductive ReadErr where
  | wrongCount (n : ℕ)
  | tooOld (diffMs : ℤ)
deriving DecidableEq, Repr

/-- The verification tail of `Read` (pkg/metrics/read.go lines 77–87),
given the query's result vector (each element its sample value, a float
holding a milliseconds timestamp), the current wall time and the latency
bound: require exactly one element; truncate its value to whole seconds
(`time.Unix(int64(vec[0].Value/1000), 0)`, i.e. `⌊v/1000⌋` seconds for the
nonnegative values the probe writes); fail if the age `now - t` exceeds
the bound. -/
def readVerify (vec : List ℚ) (nowMs latencyMs : ℤ) : Option ReadErr :=
  if vec.length ≠ 1 then some (.wrongCount vec.length)
  else
    let v := vec.headI
    let tSec : ℤ := ⌊v / 1000⌋
    let diffMs : ℤ := nowMs - tSec * 1000
    if latencyMs < diffMs then some (.tooOld diffMs) else none

/-- `generate` (write.go lines 146–162): the write sample's value and
timestamp are both `now` in milliseconds. -/
structure WriteSample where
  value : ℚ
  timestamp : ℤ
deriving DecidableEq, Repr

/-- `generate`'s sample for wall time `now` (milliseconds). -/
def generate (nowMs : ℕ) : WriteSample :=
  ⟨(nowMs : ℚ), (nowMs : ℤ)⟩

/-- C6: a result vector with zero elements or more than one element is
always a read-probe failure (the cardinality error, reporting the actual
count); only a one-element result is evaluated against the latency bound,
and it succeeds exactly when the measured age is within the bound. -/
theorem readVerify_cardinality (vec : List ℚ) (nowMs latencyMs : ℤ) :
    (vec.length ≠ 1 →
      readVerify vec nowMs latencyMs = some (.wrongCount vec.length)) ∧
    (vec.length = 1 →
      (readVerify vec nowMs latencyMs = none ↔
        nowMs - ⌊vec.headI / 1000⌋ * 1000 ≤ latencyMs)) := by
  constructor
  · intro h
    simp [readVerify, h]
  · intro h
    by_cases hl : latencyMs < nowMs - ⌊vec.headI / 1000⌋ * 1000
    · simp [readVerify, h, hl, not_le.mpr hl]
    · simp [readVerify, h, hl, not_lt.mp hl]

/-- C6 witness: the empty result is the cardinality failure, and a
one-element result is decided by the latency bound. -/
theorem readVerify_cardinality_witness :
    (([] : List ℚ).length ≠ 1 ∧
      readVerify [] 0 0 = some (.wrongCount 0)) ∧
    ([(1000 : ℚ)].length = 1 ∧
      (readVerify [(1000 : ℚ)] 1500 1000 = none ↔
        (1500 : ℤ) - ⌊(1000 : ℚ)/1000⌋ * 1000 ≤ 1000)) :=
  ⟨⟨by decide, (readVerify_cardinality [] 0 0).1 (by decide)⟩,
    ⟨rfl, (readVerify_cardinality [(1000 : ℚ)] 1500 1000).2 rfl⟩⟩

lemma floor_div_thousand (w : ℕ) : ⌊((w : ℚ)) / 1000⌋ = ((w / 1000 : ℕ) : ℤ) := by
  have h1000 : (0 : ℚ) < 1000 := by norm_num
  rw [Int.floor_eq_iff]
  constructor
  · rw [le_div_iff₀ h1000]
    exact_mod_cast Nat.div_mul_le_self w 1000
  · rw [div_lt_iff₀ h1000]
    have hdm := Nat.div_add_mod w 1000
    have hm : w % 1000 < 1000 := Nat.mod_lt _ (by norm_num)
    have hb : w < (w / 1000 + 1) * 1000 := by omega
    push_cast
    exact_mod_cast hb

/-- C7 counterexample: the claim says a sample read back within the latency
bound always satisfies the success condition, but the code truncates the
embedded timestamp to whole seconds before measuring the age: the sample
written at 1500 ms and read at 2500 ms is exactly 1000 ms old — within a
1000 ms bound — yet the probe measures 2500 − 1000 = 1500 ms and fails. -/
theorem readVerify_truncation_counterexample :
    (generate 1500).value = (1500 : ℚ) ∧
    (2500 : ℤ) - (generate 1500).timestamp ≤ 1000 ∧
    readVerify [(generate 1500).value] 2500 1000 = some (.tooOld 1500) := by
  refine ⟨by norm_num [generate], by norm_num [generate], ?_⟩
  have hf : ⌊((1500 : ℕ) : ℚ) / 1000⌋ = ((1 : ℕ) : ℤ) := floor_div_thousand 1500
  have hv : (generate 1500).value = ((1500 : ℕ) : ℚ) := by norm_num [generate]
  rw [show [(generate 1500).value] = [((1500 : ℕ) : ℚ)] from by rw [hv]]
  simp only [readVerify, List.length_singleton, List.headI, hf]
  norm_num

/-- C7 (amended): for a write sample whose value and timestamp both equal
the write-time wall clock in milliseconds, the read-back succeeds iff the
age measured against the embedded timestamp rounded DOWN to whole seconds
is within the bound. Consequently exceeding the bound by one millisecond
(or any amount) always fails — truncation only increases the measured
age — while being within the bound only guarantees success when it also
absorbs the sample's sub-second remainder. -/
theorem readVerify_roundTrip (w : ℕ) (nowMs latencyMs : ℤ) :
    (readVerify [(generate w).value] nowMs latencyMs = none ↔
      nowMs - ((w : ℤ) - (w % 1000 : ℕ)) ≤ latencyMs) ∧
    (latencyMs < nowMs - (generate w).timestamp →
      readVerify [(generate w).value] nowMs latencyMs =
        some (.tooOld (nowMs - ((w : ℤ) - (w % 1000 : ℕ))))) ∧
    ((w : ℤ) % 1000 = 0 → nowMs - (generate w).timestamp ≤ latencyMs →
      readVerify [(generate w).value] nowMs latencyMs = none) := by
  have hf : ⌊((w : ℕ) : ℚ) / 1000⌋ = ((w / 1000 : ℕ) : ℤ) := floor_div_thousand w
  have hsub : ((w / 1000 : ℕ) : ℤ) * 1000 = (w : ℤ) - (w % 1000 : ℕ) := by
    have := Nat.div_add_mod w 1000
    push_cast
    omega
  have hmain : ∀ lm : ℤ, readVerify [(generate w).value] nowMs lm =
      if lm < nowMs - ((w : ℤ) - (w % 1000 : ℕ)) then
        some (.tooOld (nowMs - ((w : ℤ) - (w % 1000 : ℕ)))) else none := by
    intro lm
    simp only [readVerify, generate, List.length_singleton, List.headI, hf, hsub]
    norm_num
  refine ⟨?_, fun h => ?_, fun hm h => ?_⟩
  · rw [hmain]
    by_cases h : latencyMs < nowMs - ((w : ℤ) - (w % 1000 : ℕ))
    · simp [h]
    · simp [h]
  · rw [hmain]
    have hc : latencyMs < nowMs - ((w : ℤ) - (w % 1000 : ℕ)) := by
      simp only [generate] at h
      omega
    rw [if_pos hc]
  · rw [hmain]
    have hc : ¬ latencyMs < nowMs - ((w : ℤ) - (w % 1000 : ℕ)) := by
      simp only [generate] at h
      omega
    rw [if_neg hc]

/-- C7 witness: a sample written at 2000 ms (a whole second) and read at
3000 ms against a 1000 ms bound is within the bound and succeeds; the same
sample read at 3001 ms exceeds the bound by one millisecond and fails. -/
theorem readVerify_roundTrip_witness :
    ((2000 : ℤ) % 1000 = 0 ∧ (3000 : ℤ) - (generate 2000).timestamp ≤ 1000 ∧
      readVerify [(generate 2000).value] 3000 1000 = none) ∧
    ((1000 : ℤ) < (3001 : ℤ) - (generate 2000).timestamp ∧
      readVerify [(generate 2000).value] 3001 1000 =
        some (.tooOld ((3001 : ℤ) - ((2000 : ℤ) - ((2000 % 1000 : ℕ) : ℤ))))) :=
  ⟨⟨by decide, by norm_num [generate],
      (readVerify_roundTrip 2000 3000 1000).2.2 (by decide) (by norm_num [generate])⟩,
    ⟨by norm_num [generate],
      (readVerify_roundTrip 2000 3001 1000).2.1 (by norm_num [generate])⟩⟩

/-! ### Periodic scheduler (`runPeriodically`, cmd/up/main.go lines 292–330)

The loop is embedded as a state machine over its two `select` arms. Time is
an integer instant; the in-flight invocation is the pair
`(rCtx, rCancel, deadline)` the tick arm creates. An invocation's context
becomes done (Go context semantics) when its absolute deadline passes, when
its cancel function runs — the goroutine defers `rCancel()` around `f`, so
natural completion (or a panic) cancels it — or when a cancellable ancestor
context is cancelled. Which root the context hangs off is recorded
explicitly, since that is exactly what claim C2 is about. -/

/-- The root a derived context hangs off: `context.Background()` or the
enclosing context `C` passed to `runPeriodically`. -/
inductive CtxSrc where
  | background
  | enclosing
deriving DecidableEq, Repr

/-- The per-invocation state created by the tick arm: the root its context
was derived from and its absolute deadline. -/
structure Invocation where
  parent : CtxSrc
  deadline : ℤ
deriving DecidableEq, Repr

/-- The scheduler's loop state: whether the ticker is still running and
the most recent invocation (`rCtx`/`rCancel`/`deadline`), `none` before
the first tick fires. -/
structure SchedState where
  tickerRunning : Bool
  rCtx : Option Invocation
deriving DecidableEq, Repr

/-- State at entry of `runPeriodically`: ticker started, no invocation. -/
def initState : SchedState := ⟨true, none⟩

/-- The `<-t.C` arm (cmd/up/main.go lines 302–313): derive a fresh context
from `context.Background()` — deliberately not from the enclosing context —
with deadline `now + P`, and start `f` on it on its own goroutine. -/
def onTick (now P : ℤ) (s : SchedState) : SchedState :=
  { s with rCtx := some ⟨CtxSrc.background, now + P⟩ }

/-- When the invocation's context is done at time `t` (Go context
semantics for `WithDeadline(root, d)` with the deferred `rCancel`):
its deadline has passed, `f` returned at some `tc ≤ t` (the deferred
`rCancel` fires), or — only if it was derived from the enclosing
context — the enclosing context was cancelled at some `te ≤ t`. -/
def invocationDone (inv : Invocation) (t : ℤ) (completedAt : Option ℤ)
    (enclosingCancelledAt : Option ℤ) : Bool :=
  decide (inv.deadline ≤ t) ||
  (match completedAt with
   | some tc => decide (tc ≤ t)
   | none => false) ||
  (match inv.parent with
   | .background => false
   | .enclosing =>
      match enclosingCancelledAt with
      | some te => decide (te ≤ t)
      | none => false)

/-- Observable outcome of the `<-ctx.Done()` arm: the ticker is stopped,
the arm returns (into `reportResults`) at `returnTime`, and
`forcedCancelAt` is the time at which the scheduler itself called
`rCancel` via the `time.After` branch (`none` when it returned through
`<-rCtx.Done()` instead). -/
structure ShutdownResult where
  tickerStopped : Bool
  returnTime : ℤ
  forcedCancelAt : Option ℤ
deriving DecidableEq, Repr

/-- The `<-ctx.Done()` arm (cmd/up/main.go lines 315–327), entered at time
`now` with `completedAt` the time `f`'s goroutine finishes (`none` = it
would run past its deadline): `t.Stop()`; if no invocation ever started
(`rCtx == nil`) return immediately; otherwise select between
`time.After(time.Until(deadline))` — which fires at the deadline (or at
once if it already passed) and then calls `rCancel` — and `<-rCtx.Done()`,
which is closed at natural completion (deferred `rCancel`) and at the
deadline. -/
def onEnclosingCancel (s : SchedState) (now : ℤ) (completedAt : Option ℤ) :
    ShutdownResult :=
  match s.rCtx with
  | none => ⟨true, now, none⟩
  | some inv =>
      let deadlineFire := max now inv.deadline
      match completedAt with
      | none => ⟨true, deadlineFire, some deadlineFire⟩
      | some tc =>
          let doneFire := max now tc
          if doneFire ≤ deadlineFire then ⟨true, doneFire, none⟩
          else ⟨true, deadlineFire, some deadlineFire⟩

/-- C2: the tick arm derives the new invocation context from the
background root — never from the enclosing context — with absolute
deadline `now + P`; consequently the invocation's done-signal is entirely
independent of when (or whether) the enclosing context is cancelled, and
before its own deadline an uncompleted invocation is never done. -/
theorem onTick_spec (now P : ℤ) (s : SchedState) :
    (onTick now P s).rCtx = some ⟨CtxSrc.background, now + P⟩ ∧
    (∀ t : ℤ, ∀ compl te te' : Option ℤ,
      invocationDone ⟨CtxSrc.background, now + P⟩ t compl te =
        invocationDone ⟨CtxSrc.background, now + P⟩ t compl te') ∧
    (∀ t : ℤ, ∀ te : Option ℤ, t < now + P →
      invocationDone ⟨CtxSrc.background, now + P⟩ t none te = false) := by
  refine ⟨rfl, fun t compl te te' => rfl, fun t te ht => ?_⟩
  simp [invocationDone, ht, not_le.mpr ht]

/-- C2 witness: at `now = 0`, period `5`, the created invocation has the
background root and deadline `5`, and at time `3` it is not done even if
the enclosing context was cancelled at time `1`. -/
theorem onTick_spec_witness :
    (onTick 0 5 initState).rCtx = some ⟨CtxSrc.background, 5⟩ ∧
    ((3 : ℤ) < 0 + 5 ∧
      invocationDone ⟨CtxSrc.background, 0 + 5⟩ 3 none (some 1) = false) :=
  ⟨(onTick_spec 0 5 initState).1,
    ⟨by decide, (onTick_spec 0 5 initState).2.2 3 (some 1) (by decide)⟩⟩

/-- C3: on cancellation of the enclosing context the scheduler stops the
ticker and returns at the earlier of the outstanding invocation's natural
completion and its own deadline: the wait is always bounded by the
deadline (never indefinite), the scheduler's own `rCancel` call never
happens before the deadline, and when the enclosing context is cancelled
before the first tick ever fired it returns immediately. -/
theorem onEnclosingCancel_spec (s : SchedState) (now : ℤ) (completedAt : Option ℤ) :
    (onEnclosingCancel s now completedAt).tickerStopped = true ∧
    (∀ inv, s.rCtx = some inv →
      (onEnclosingCancel s now completedAt).returnTime ≤ max now inv.deadline) ∧
    (∀ inv tc, s.rCtx = some inv → completedAt = some tc →
      (onEnclosingCancel s now completedAt).returnTime =
        min (max now tc) (max now inv.deadline)) ∧
    (∀ inv, s.rCtx = some inv → completedAt = none →
      (onEnclosingCancel s now completedAt).returnTime = max now inv.deadline) ∧
    (∀ tcancel, (onEnclosingCancel s now completedAt).forcedCancelAt = some tcancel →
      ∀ inv, s.rCtx = some inv → inv.deadline ≤ tcancel) ∧
    (s.rCtx = none → onEnclosingCancel s now completedAt = ⟨true, now, none⟩) := by
  obtain ⟨tick, rctx⟩ := s
  cases rctx with
  | none =>
      refine ⟨rfl, ?_, ?_, ?_, ?_, fun _ => rfl⟩
      · intro inv h
        exact absurd h (by simp)
      · intro inv tc h _
        exact absurd h (by simp)
      · intro inv h _
        exact absurd h (by simp)
      · intro tcancel _ inv h
        exact absurd h (by simp)
  | some inv =>
      refine ⟨?_, ?_, ?_, ?_, ?_, ?_⟩
      · cases completedAt with
        | none => rfl
        | some tc =>
            by_cases hle : max now tc ≤ max now inv.deadline <;>
              simp [onEnclosingCancel, hle]
      · intro inv' h
        injection h with heq
        subst heq
        cases completedAt with
        | none => simp [onEnclosingCancel]
        | some tc =>
            by_cases hle : max now tc ≤ max now inv.deadline
            · simp only [onEnclosingCancel, if_pos hle]
              exact hle
            · simp [onEnclosingCancel, hle]
      · intro inv' tc h htc
        injection h with heq
        subst heq
        subst htc
        by_cases hle : max now tc ≤ max now inv.deadline <;>
          simp [onEnclosingCancel, hle] <;> omega
      · intro inv' h htc
        injection h with heq
        subst heq
        subst htc
        simp [onEnclosingCancel]
      · intro tcancel htc inv' h
        injection h with heq
        subst heq
        cases completedAt with
        | none =>
            simp only [onEnclosingCancel] at htc
            injection htc with heq2
            omega
        | some tc =>
            by_cases hle : max now tc ≤ max now inv.deadline
            · simp [onEnclosingCancel, hle] at htc
            · simp only [onEnclosingCancel, if_neg hle] at htc
              injection htc with heq2
              omega
      · intro hnone
        exact absurd hnone (by simp)

/-- C3 witness: with an outstanding invocation deadlined at 10 and natural
completion at 7, cancellation at time 4 returns at 7 = min of completion
and deadline; before the first tick (`rCtx = nil`) it returns immediately. -/
theorem onEnclosingCancel_spec_witness :
    ((⟨true, some ⟨CtxSrc.background, 10⟩⟩ : SchedState).rCtx =
        some ⟨CtxSrc.background, 10⟩ ∧
      (onEnclosingCancel ⟨true, some ⟨CtxSrc.background, 10⟩⟩ 4 (some 7)).returnTime =
        min (max 4 7) (max 4 10)) ∧
    (onEnclosingCancel initState 4 none = ⟨true, 4, none⟩) :=
  ⟨⟨rfl,
      (onEnclosingCancel_spec ⟨true, some ⟨CtxSrc.background, 10⟩⟩ 4 (some 7)).2.2.1
        ⟨CtxSrc.background, 10⟩ 7 rfl rfl⟩,
    (onEnclosingCancel_spec initState 4 none).2.2.2.2.2 rfl⟩

end Up
